import Mathlib

/-!
Shallow embedding of the `@mixer/postmessage-rpc` sources (src/reorder.ts,
src/rpc.ts, src/types.ts, src/error.ts) and proofs about the claims of the spec.

Conventions: JS numbers that hold packet counters and ids are modelled as
`Int`; JS `undefined` on a structured value is the `Value.vUndefined`
constructor; a missing field of a duck-typed inbound object is `Option.none`.
All definitions are computable and follow the TypeScript control flow
line by line.
-/

namespace PostMessageRPC

/-- JSON-like values carried in packet `params` / `result` fields. -/
inductive Value where
  | vNull
  | vUndefined
  | vBool (b : Bool)
  | vInt (n : Int)
  | vStr (s : String)
  | vObj (fields : List (String × Value))

/-- Wire error shape `{code, message, path?}` (types.ts, `IRPCReply.error`). -/
structure ErrObj where
  code : Int
  message : String
  path : Option (List String)
deriving DecidableEq

/-- A parsed packet as the engine manipulates it after validation.
JS objects are duck-typed, so one flat record carries the fields of both
`IRPCMethod` and `IRPCReply` (types.ts); fields that are absent on the wire
are `""` / `vUndefined` / `false` / `none`, standing for JS `undefined`. -/
structure Packet where
  ptype : String
  serviceID : String
  id : Int
  method : String
  params : Value
  discard : Bool
  result : Value
  error : Option ErrObj
  counter : Int

/-- Field access `v.key`-style on a JS value. Property access on `null` or
`undefined` throws a TypeError (modelled as `.error`); on an object it
yields the field, or `undefined` when the field is absent; on any other
(non-null) primitive it yields `undefined` without throwing. -/
def Value.access (v : Value) (key : String) : Except String Value :=
  match v with
  | .vNull => .error "TypeError"
  | .vUndefined => .error "TypeError"
  | .vObj fields =>
    match fields.find? (fun f => f.1 == key) with
    | some f => .ok f.2
    | none => .ok .vUndefined
  | _ => .ok .vUndefined

/-! ## Reorder buffer (src/reorder.ts) -/

/-- State of the `Reorder` class: `lastSequentialCall` (initially -1) and the
pending `queue` (reorder.ts lines 10, 15). -/
structure Reorder where
  lastSequentialCall : Int
  queue : List Packet

/-- Initial reorder state (reorder.ts line 10: `lastSequentialCall = -1`). -/
def Reorder.init : Reorder := ⟨-1, []⟩

/-- The `replayQueue` loop (reorder.ts lines 44-54): drain the queue head
while its counter is ≤ `last + 1`, advancing `last` to each drained counter.
Returns (drained packets, final lastSequentialCall, remaining queue). -/
def replayQueue (last : Int) (queue : List Packet) : List Packet × Int × List Packet :=
  match queue with
  | [] => ([], last, [])
  | next :: rest =>
    if next.counter > last + 1 then ([], last, next :: rest)
    else
      let r := replayQueue next.counter rest
      (next :: r.1, r.2)

/-- The sorted-insert loop of `append` (reorder.ts lines 33-41): splice the
packet before the first queued packet with a strictly greater counter,
otherwise push it at the end. -/
def insertIntoQueue (packet : Packet) (queue : List Packet) : List Packet :=
  match queue with
  | [] => [packet]
  | q :: rest =>
    if q.counter > packet.counter then packet :: q :: rest
    else q :: insertIntoQueue packet rest

/-- `Reorder.append` (reorder.ts lines 21-42). Returns the packets released
in order together with the new buffer state. -/
def Reorder.append (r : Reorder) (packet : Packet) : List Packet × Reorder :=
  let r1 : Reorder :=
    if packet.ptype = "method" ∧ packet.method = "ready" then
      { r with lastSequentialCall := packet.counter - 1 }
    else r
  if packet.counter ≤ r1.lastSequentialCall + 1 then
    let rq := replayQueue packet.counter r1.queue
    (packet :: rq.1, ⟨rq.2.1, rq.2.2⟩)
  else
    ([], { r1 with queue := insertIntoQueue packet r1.queue })

/-- Modelled from the spec: `Reorder.reset` is invoked by the engine on a
fresh handshake (rpc.ts line 291 `this.reorder.reset(packet.counter)`) but
the method body is absent from the given reorder.ts source. Per the spec it
"sets `lastSequentialCall` to `counter`, discards the pending queue". -/
def Reorder.reset (_r : Reorder) (counter : Int) : Reorder := ⟨counter, []⟩

/-- Feeding a list of packets one at a time through `append`, concatenating
the released lists. -/
def feedAll (r : Reorder) (ps : List Packet) : List Packet × Reorder :=
  match ps with
  | [] => ([], r)
  | p :: rest =>
    let a := r.append p
    let b := feedAll a.2 rest
    (a.1 ++ b.1, b.2)

/-- Consecutive integers `a, a+1, ..., a+k-1`. -/
def intRange (a : Int) (k : Nat) : List Int :=
  (List.range k).map (fun i : Nat => a + (i : Int))

/-! ## Basic facts about `intRange` -/

theorem intRange_zero (a : Int) : intRange a 0 = [] := rfl

theorem intRange_succ (a : Int) (k : Nat) :
    intRange a (k + 1) = a :: intRange (a + 1) k := by
  unfold intRange
  rw [List.range_succ_eq_map, List.map_cons, List.map_map]
  congr 1
  · simp
  · apply List.map_congr_left
    intro i _
    simp only [Function.comp_apply]
    push_cast
    ring

theorem mem_intRange {x a : Int} {k : Nat} :
    x ∈ intRange a k ↔ a ≤ x ∧ x < a + k := by
  simp only [intRange, List.mem_map, List.mem_range]
  constructor
  · rintro ⟨i, hi, rfl⟩
    omega
  · rintro ⟨h1, h2⟩
    exact ⟨(x - a).toNat, by omega, by omega⟩

theorem intRange_append (a : Int) (j k : Nat) :
    intRange a j ++ intRange (a + j) k = intRange a (j + k) := by
  induction j generalizing a with
  | zero => simp [intRange_zero]
  | succ n ih =>
    have hnk : n + 1 + k = (n + k) + 1 := by omega
    have h1 : intRange (a + ↑(n + 1)) k = intRange ((a + 1) + ↑n) k := by
      congr 1
      push_cast
      ring
    rw [intRange_succ, hnk, intRange_succ, List.cons_append, h1, ih (a + 1)]

theorem intRange_length (a : Int) (k : Nat) : (intRange a k).length = k := by
  rw [intRange, List.length_map, List.length_range]

theorem intRange_nodup (a : Int) (k : Nat) : (intRange a k).Nodup := by
  apply List.Nodup.map
  · intro i j h
    simp only at h
    omega
  · exact List.nodup_range k

/-! ## Unfolding lemmas for `Reorder.append` -/

theorem append_eq_release {r : Reorder} {p : Packet}
    (hready : ¬(p.ptype = "method" ∧ p.method = "ready"))
    (hc : p.counter ≤ r.lastSequentialCall + 1) :
    r.append p =
      (p :: (replayQueue p.counter r.queue).1,
       ⟨(replayQueue p.counter r.queue).2.1, (replayQueue p.counter r.queue).2.2⟩) := by
  simp [Reorder.append, hready, hc]

theorem append_eq_queue {r : Reorder} {p : Packet}
    (hready : ¬(p.ptype = "method" ∧ p.method = "ready"))
    (hc : ¬(p.counter ≤ r.lastSequentialCall + 1)) :
    r.append p = ([], ⟨r.lastSequentialCall, insertIntoQueue p r.queue⟩) := by
  simp [Reorder.append, hready, hc]

theorem append_eq_ready {r : Reorder} {p : Packet}
    (h1 : p.ptype = "method") (h2 : p.method = "ready") :
    r.append p =
      (p :: (replayQueue p.counter r.queue).1,
       ⟨(replayQueue p.counter r.queue).2.1, (replayQueue p.counter r.queue).2.2⟩) := by
  have hc : p.counter ≤ p.counter - 1 + 1 := by omega
  simp [Reorder.append, h1, h2, hc]

/-! ## `replayQueue` lemmas -/

theorem replayQueue_split (last : Int) (queue : List Packet) :
    (replayQueue last queue).1 ++ (replayQueue last queue).2.2 = queue := by
  induction queue generalizing last with
  | nil => simp [replayQueue]
  | cons next rest ih =>
    by_cases h : next.counter > last + 1
    · simp [replayQueue, h]
    · simp only [replayQueue, if_neg h, List.cons_append, List.cons.injEq, true_and]
      exact ih next.counter

/-- Packets are pairwise strictly sorted by counter. -/
abbrev QSorted (l : List Packet) : Prop :=
  List.Pairwise (fun a b : Packet => a.counter < b.counter) l

theorem replayQueue_spec (queue : List Packet) (last : Int)
    (hs : QSorted queue) (hgt : ∀ x ∈ queue, last < x.counter) :
    (replayQueue last queue).1.map Packet.counter
        = intRange (last + 1) (replayQueue last queue).1.length
      ∧ (replayQueue last queue).2.1 = last + (replayQueue last queue).1.length
      ∧ (∀ x ∈ (replayQueue last queue).2.2, (replayQueue last queue).2.1 + 1 < x.counter)
      ∧ QSorted (replayQueue last queue).2.2 := by
  induction queue generalizing last with
  | nil => simp [replayQueue, intRange_zero, QSorted]
  | cons next rest ih =>
    rcases (List.pairwise_cons.mp hs) with ⟨hnext, hrest⟩
    by_cases h : next.counter > last + 1
    · refine ⟨by simp [replayQueue, h, intRange_zero], by simp [replayQueue, h], ?_, ?_⟩
      · intro x hx
        simp only [replayQueue, if_pos h] at hx ⊢
        rcases List.mem_cons.mp hx with rfl | hx
        · omega
        · have := hnext x hx
          omega
      · simpa [replayQueue, h] using hs
    · have hn : next.counter = last + 1 := by
        have := hgt next (List.mem_cons_self next rest)
        omega
      have ihr := ih next.counter hrest (fun x hx => hnext x hx)
      refine ⟨?_, ?_, ?_, ?_⟩
      · simp only [replayQueue, if_neg h, List.map_cons, List.length_cons]
        rw [intRange_succ, ← hn]
        exact congrArg _ (by rw [ihr.1, hn])
      · simp only [replayQueue, if_neg h, List.length_cons]
        have := ihr.2.1
        omega
      · intro x hx
        simp only [replayQueue, if_neg h] at hx ⊢
        have h2 := ihr.2.2.1 x hx
        have := ihr.2.1
        omega
      · simpa [replayQueue, h] using ihr.2.2.2

/-! ## `insertIntoQueue` lemmas -/

theorem insertIntoQueue_perm (p : Packet) (queue : List Packet) :
    (insertIntoQueue p queue).Perm (p :: queue) := by
  induction queue with
  | nil => simp [insertIntoQueue]
  | cons q rest ih =>
    by_cases h : q.counter > p.counter
    · simp [insertIntoQueue, h]
    · simp only [insertIntoQueue, if_neg h]
      exact (ih.cons q).trans (List.Perm.swap p q rest)

theorem mem_insertIntoQueue {x p : Packet} {queue : List Packet} :
    x ∈ insertIntoQueue p queue ↔ x = p ∨ x ∈ queue := by
  rw [(insertIntoQueue_perm p queue).mem_iff]
  simp

theorem insertIntoQueue_sorted {p : Packet} {queue : List Packet}
    (hs : QSorted queue) (hne : ∀ x ∈ queue, p.counter ≠ x.counter) :
    QSorted (insertIntoQueue p queue) := by
  induction queue with
  | nil => simp [insertIntoQueue, QSorted]
  | cons q rest ih =>
    rcases (List.pairwise_cons.mp hs) with ⟨hq, hrest⟩
    by_cases h : q.counter > p.counter
    · simp only [insertIntoQueue, if_pos h]
      refine List.pairwise_cons.mpr ⟨?_, hs⟩
      intro x hx
      rcases List.mem_cons.mp hx with rfl | hx
      · omega
      · have := hq x hx
        omega
    · have hqp : q.counter < p.counter := by
        have := hne q (List.mem_cons_self q rest)
        omega
      simp only [insertIntoQueue, if_neg h]
      refine List.pairwise_cons.mpr ⟨?_, ih hrest (fun x hx => hne x (List.mem_cons_of_mem q hx))⟩
      intro x hx
      rcases mem_insertIntoQueue.mp hx with rfl | hx
      · exact hqp
      · exact hq x hx

/-! ## The reordering invariant and the ordering theorem (claim C1) -/

/-- Invariant tying the packets fed so far (`fed`), the packets released so
far (`out`) and the buffer state `r`, for a session whose baseline is `n`. -/
structure ReorderInv (n : Int) (fed out : List Packet) (r : Reorder) : Prop where
  perm : (out ++ r.queue).Perm fed
  outCounters : ∃ j : Nat, r.lastSequentialCall = n + j
    ∧ out.map Packet.counter = intRange (n + 1) j
  queueSorted : QSorted r.queue
  queueHigh : ∀ q ∈ r.queue, r.lastSequentialCall + 1 < q.counter

theorem counter_mem_of_mem_fed {fed out : List Packet} {r : Reorder} {x : Packet}
    (hperm : (out ++ r.queue).Perm fed) (hx : x ∈ out ++ r.queue) :
    x.counter ∈ fed.map Packet.counter :=
  (hperm.map Packet.counter).subset (List.mem_map_of_mem Packet.counter hx)

theorem ReorderInv.step {n : Int} {fed out : List Packet} {r : Reorder} {p : Packet}
    (inv : ReorderInv n fed out r)
    (hready : ¬(p.ptype = "method" ∧ p.method = "ready"))
    (hgt : n < p.counter)
    (hnew : p.counter ∉ fed.map Packet.counter) :
    ReorderInv n (fed ++ [p]) (out ++ (r.append p).1) (r.append p).2 := by
  obtain ⟨j, hj, hout⟩ := inv.outCounters
  by_cases hc : p.counter ≤ r.lastSequentialCall + 1
  · -- the packet is released immediately and the queue is drained
    have hpc : p.counter = r.lastSequentialCall + 1 := by
      by_contra hne
      have hmemout : p.counter ∈ out.map Packet.counter := by
        rw [hout, mem_intRange]
        omega
      refine hnew ?_
      refine (inv.perm.map Packet.counter).subset ?_
      rw [List.map_append]
      exact List.mem_append_left _ hmemout
    rw [append_eq_release hready hc]
    have hqgt : ∀ x ∈ r.queue, p.counter < x.counter := by
      intro x hx
      have := inv.queueHigh x hx
      omega
    obtain ⟨hmap, hlast, hhigh, hsort⟩ :=
      replayQueue_spec r.queue p.counter inv.queueSorted hqgt
    have hsplit := replayQueue_split p.counter r.queue
    refine ⟨?_, ?_, hsort, hhigh⟩
    · have e1 : (out ++ p :: (replayQueue p.counter r.queue).1)
          ++ (replayQueue p.counter r.queue).2.2 = out ++ p :: r.queue := by
        rw [List.append_assoc, List.cons_append, hsplit]
      rw [e1]
      exact List.perm_middle.trans ((inv.perm.cons p).trans
        (List.perm_append_singleton p fed).symm)
    · refine ⟨j + ((replayQueue p.counter r.queue).1.length + 1), by push_cast; omega, ?_⟩
      rw [List.map_append, List.map_cons, hout, hmap, ← intRange_succ]
      have hp2 : p.counter = (n + 1) + (j : Int) := by omega
      rw [hp2, intRange_append]
  · -- the packet is queued, nothing is released
    rw [append_eq_queue hready hc]
    have hqmem : ∀ x ∈ r.queue, p.counter ≠ x.counter := by
      intro x hx heq
      refine hnew ?_
      rw [heq]
      exact counter_mem_of_mem_fed inv.perm (List.mem_append_right out hx)
    refine ⟨?_, ⟨j, hj, by simpa using hout⟩, insertIntoQueue_sorted inv.queueSorted hqmem, ?_⟩
    · have h1 : (out ++ insertIntoQueue p r.queue).Perm (out ++ p :: r.queue) :=
        (insertIntoQueue_perm p r.queue).append_left out
      simp only [List.append_nil]
      exact h1.trans (List.perm_middle.trans ((inv.perm.cons p).trans
        (List.perm_append_singleton p fed).symm))
    · intro x hx
      have hx2 : x ∈ insertIntoQueue p r.queue := hx
      show r.lastSequentialCall + 1 < x.counter
      rcases mem_insertIntoQueue.mp hx2 with rfl | hx3
      · omega
      · exact inv.queueHigh x hx3

theorem feedAll_inv {n : Int} (ps : List Packet) :
    ∀ (fed out : List Packet) (r : Reorder),
    ReorderInv n fed out r →
    (∀ p ∈ ps, ¬(p.ptype = "method" ∧ p.method = "ready")) →
    (∀ p ∈ ps, n < p.counter) →
    ((fed ++ ps).map Packet.counter).Nodup →
    ReorderInv n (fed ++ ps) (out ++ (feedAll r ps).1) (feedAll r ps).2 := by
  induction ps with
  | nil =>
    intro fed out r inv _ _ _
    simpa [feedAll] using inv
  | cons p rest ih =>
    intro fed out r inv hready hgt hnodup
    have hnew : p.counter ∉ fed.map Packet.counter := by
      intro hmem
      rw [List.map_append, List.nodup_append] at hnodup
      exact hnodup.2.2 hmem (by simp)
    have hstep := inv.step (hready p (by simp)) (hgt p (by simp)) hnew
    have hnodup2 : (((fed ++ [p]) ++ rest).map Packet.counter).Nodup := by
      simpa [List.append_assoc] using hnodup
    have hrec := ih (fed ++ [p]) (out ++ (r.append p).1) (r.append p).2 hstep
      (fun q hq => hready q (List.mem_cons_of_mem p hq))
      (fun q hq => hgt q (List.mem_cons_of_mem p hq)) hnodup2
    have e1 : (fed ++ [p]) ++ rest = fed ++ p :: rest := by simp
    have e2 : (feedAll r (p :: rest)).1 = (r.append p).1 ++ (feedAll (r.append p).2 rest).1 := rfl
    have e3 : (feedAll r (p :: rest)).2 = (feedAll (r.append p).2 rest).2 := rfl
    rw [e2, e3, ← List.append_assoc]
    rw [e1] at hrec
    exact hrec

theorem reorderInv_final {n : Int} {k : Nat} {ps out : List Packet} {r : Reorder}
    (inv : ReorderInv n ps out r)
    (hperm : (ps.map Packet.counter).Perm (intRange (n + 1) k)) :
    out.Perm ps ∧ out.map Packet.counter = intRange (n + 1) k := by
  obtain ⟨j, hj, hout⟩ := inv.outCounters
  have hq : r.queue = [] := by
    cases hq : r.queue with
    | nil => rfl
    | cons q rest =>
      exfalso
      have hqmem : q ∈ r.queue := by rw [hq]; exact List.mem_cons_self q rest
      have hqfed : q.counter ∈ ps.map Packet.counter :=
        counter_mem_of_mem_fed inv.perm (List.mem_append_right out hqmem)
      have hqrange : q.counter ∈ intRange (n + 1) k := hperm.subset hqfed
      rw [mem_intRange] at hqrange
      have hqhigh := inv.queueHigh q hqmem
      -- the counter value `lastSequentialCall + 1` must occur somewhere
      have hcrange : r.lastSequentialCall + 1 ∈ intRange (n + 1) k := by
        rw [mem_intRange]
        omega
      have hcfed : r.lastSequentialCall + 1 ∈ (out ++ r.queue).map Packet.counter :=
        ((inv.perm.map Packet.counter).trans hperm).mem_iff.mpr hcrange
      rw [List.map_append, List.mem_append] at hcfed
      rcases hcfed with hco | hcq
      · rw [hout, mem_intRange] at hco
        omega
      · obtain ⟨x, hx, hxc⟩ := List.mem_map.mp hcq
        have := inv.queueHigh x hx
        omega
  have hperm2 : out.Perm ps := by
    have := inv.perm
    rw [hq, List.append_nil] at this
    exact this
  refine ⟨hperm2, ?_⟩
  have hjk : j = k := by
    have h1 : (intRange (n + 1) j).Perm (intRange (n + 1) k) := by
      rw [← hout]
      exact (hperm2.map Packet.counter).trans hperm
    have h2 := h1.length_eq
    rw [intRange_length, intRange_length] at h2
    exact h2
  rw [hout, hjk]

/-! ## Membership lemmas: released packets always come from the input -/

theorem append_mem_out {r : Reorder} {p : Packet} :
    ∀ q ∈ (r.append p).1, q = p ∨ q ∈ r.queue := by
  intro q hq
  unfold Reorder.append at hq
  set r1 := if p.ptype = "method" ∧ p.method = "ready" then
    { r with lastSequentialCall := p.counter - 1 } else r with hr1
  have hq1 : r1.queue = r.queue := by
    rw [hr1]
    split <;> rfl
  by_cases hc : p.counter ≤ r1.lastSequentialCall + 1
  · simp only [if_pos hc] at hq
    rcases List.mem_cons.mp hq with rfl | hq2
    · exact Or.inl rfl
    · refine Or.inr ?_
      rw [← hq1, ← replayQueue_split p.counter r1.queue]
      exact List.mem_append_left _ hq2
  · simp only [if_neg hc] at hq
    exact absurd hq (List.not_mem_nil q)

theorem append_mem_queue {r : Reorder} {p : Packet} :
    ∀ q ∈ (r.append p).2.queue, q = p ∨ q ∈ r.queue := by
  intro q hq
  unfold Reorder.append at hq
  set r1 := if p.ptype = "method" ∧ p.method = "ready" then
    { r with lastSequentialCall := p.counter - 1 } else r with hr1
  have hq1 : r1.queue = r.queue := by
    rw [hr1]
    split <;> rfl
  by_cases hc : p.counter ≤ r1.lastSequentialCall + 1
  · simp only [if_pos hc] at hq
    refine Or.inr ?_
    rw [← hq1, ← replayQueue_split p.counter r1.queue]
    exact List.mem_append_right _ hq
  · simp only [if_neg hc] at hq
    rw [hq1] at hq
    exact mem_insertIntoQueue.mp hq

theorem feedAll_mem_out (r : Reorder) (ps : List Packet) :
    ∀ q ∈ (feedAll r ps).1, q ∈ ps ∨ q ∈ r.queue := by
  induction ps generalizing r with
  | nil =>
    intro q hq
    exact absurd hq (List.not_mem_nil q)
  | cons p rest ih =>
    intro q hq
    have e2 : (feedAll r (p :: rest)).1
        = (r.append p).1 ++ (feedAll (r.append p).2 rest).1 := rfl
    rw [e2, List.mem_append] at hq
    rcases hq with hq | hq
    · rcases append_mem_out q hq with rfl | hq2
      · exact Or.inl (by simp)
      · exact Or.inr hq2
    · rcases ih (r.append p).2 q hq with hq2 | hq2
      · exact Or.inl (List.mem_cons_of_mem p hq2)
      · rcases append_mem_queue q hq2 with rfl | hq3
        · exact Or.inl (by simp)
        · exact Or.inr hq3

/-! ## Concrete packets used for counterexamples and witnesses -/

/-- An ordinary method packet whose counter and id are `c`. -/
def plainPacketAt (c : Int) : Packet :=
  ⟨"method", "svc", c, "m", Value.vNull, false, Value.vNull, none, c⟩

/-- A handshake packet: a method packet named "ready" with counter `c`. -/
def readyPacketAt (c : Int) : Packet :=
  ⟨"method", "svc", -1, "ready", Value.vNull, false, Value.vNull, none, c⟩

/-! ## Claim C1 -/

/-- C1 counterexample: the claim as stated fails on the code. With
`lastSequentialCall = 0`, the packets with counters 1 and 2 form a contiguous
run; feeding the permutation [counter 2, counter 1] releases counters in the
order [2, 1] — not counter-ascending — because the counter-2 packet is a
"ready" method call, which `Reorder.append` (reorder.ts lines 22-24) rebases
on before the release check. -/
theorem C1_counterexample :
    (([readyPacketAt 2, plainPacketAt 1].map Packet.counter).Perm (intRange (0 + 1) 2))
    ∧ (feedAll ⟨0, []⟩ [readyPacketAt 2, plainPacketAt 1]).1.map Packet.counter = [2, 1]
    ∧ (feedAll ⟨0, []⟩ [readyPacketAt 2, plainPacketAt 1]).1.map Packet.counter
        ≠ intRange (0 + 1) 2 := by
  refine ⟨by decide, by decide, by decide⟩

/-- C1 (amended: no packet of the run is a "ready" method call, and the
buffer starts in the post-reset state, with an empty pending queue): for
every contiguous run of packets with counters n+1, ..., n+k fed one at a
time, in any permutation of arrival order, into a Reorder buffer whose
`lastSequentialCall` is `n` and whose queue is empty, the concatenation of
the lists returned by the successive `append` calls contains exactly those
packets (none omitted, none duplicated) in strictly counter-ascending
order. -/
theorem C1_reorder_ordering (n : Int) (k : Nat) (ps : List Packet)
    (hperm : (ps.map Packet.counter).Perm (intRange (n + 1) k))
    (hnoready : ∀ p ∈ ps, ¬(p.ptype = "method" ∧ p.method = "ready")) :
    (feedAll ⟨n, []⟩ ps).1.Perm ps
    ∧ (feedAll ⟨n, []⟩ ps).1.map Packet.counter = intRange (n + 1) k := by
  have base : ReorderInv n [] [] ⟨n, []⟩ := by
    refine ⟨by simp, ⟨0, by simp, by simp [intRange_zero]⟩, by simp [QSorted], by simp⟩
  have hgt : ∀ p ∈ ps, n < p.counter := by
    intro p hp
    have hmem : p.counter ∈ intRange (n + 1) k :=
      hperm.subset (List.mem_map_of_mem Packet.counter hp)
    rw [mem_intRange] at hmem
    omega
  have hnodup : ((([] : List Packet) ++ ps).map Packet.counter).Nodup := by
    simpa using hperm.nodup_iff.mpr (intRange_nodup (n + 1) k)
  have h := feedAll_inv ps [] [] ⟨n, []⟩ base hnoready hgt hnodup
  simp only [List.nil_append] at h
  exact reorderInv_final h hperm

/-- C1 witness: the amended theorem applied to the permutation [3, 1, 2] of
the run 1..3 over baseline 0. -/
theorem C1_witness :
    (([plainPacketAt 3, plainPacketAt 1, plainPacketAt 2].map Packet.counter).Perm
      (intRange (0 + 1) 3))
    ∧ ((feedAll ⟨0, []⟩ [plainPacketAt 3, plainPacketAt 1, plainPacketAt 2]).1.Perm
        [plainPacketAt 3, plainPacketAt 1, plainPacketAt 2]
      ∧ (feedAll ⟨0, []⟩ [plainPacketAt 3, plainPacketAt 1, plainPacketAt 2]).1.map
          Packet.counter = intRange (0 + 1) 3) :=
  ⟨by decide,
   C1_reorder_ordering 0 3 [plainPacketAt 3, plainPacketAt 1, plainPacketAt 2]
     (by decide) (by decide)⟩

/-! ## Claim C2 -/

/-- C2: after `reset(n)` the field `lastSequentialCall` of the buffer is `n` and the
pending queue is empty, so every previously queued packet is discarded —
later `append` calls can only ever release packets appended after the reset
— and a subsequent packet with counter `n + 1` is released immediately.
(`Reorder.reset` is modelled from the spec; its body is absent from the
given reorder.ts source, only its call site in rpc.ts survives.) -/
theorem C2_reset_correct (r : Reorder) (n : Int) (p : Packet)
    (hp : p.counter = n + 1) :
    (r.reset n).lastSequentialCall = n
    ∧ (r.reset n).queue = []
    ∧ ((r.reset n).append p).1 = [p]
    ∧ (∀ ps, ∀ q ∈ (feedAll (r.reset n) ps).1, q ∈ ps) := by
  refine ⟨rfl, rfl, ?_, ?_⟩
  · by_cases hr : p.ptype = "method" ∧ p.method = "ready"
    · simp [Reorder.reset, Reorder.append, replayQueue, hr, hp]
    · simp [Reorder.reset, Reorder.append, replayQueue, hr, hp]
  · intro ps q hq
    rcases feedAll_mem_out (r.reset n) ps q hq with h | h
    · exact h
    · exact absurd h (List.not_mem_nil q)

/-- C2 witness: resetting a buffer that holds queued packets at counter 9,
to counter 5, then appending the packet with counter 6. -/
theorem C2_witness :
    (plainPacketAt 6).counter = 5 + 1
    ∧ ((Reorder.reset ⟨2, [plainPacketAt 9]⟩ 5).lastSequentialCall = 5
      ∧ (Reorder.reset ⟨2, [plainPacketAt 9]⟩ 5).queue = []
      ∧ ((Reorder.reset ⟨2, [plainPacketAt 9]⟩ 5).append (plainPacketAt 6)).1
          = [plainPacketAt 6]
      ∧ (∀ ps, ∀ q ∈ (feedAll (Reorder.reset ⟨2, [plainPacketAt 9]⟩ 5) ps).1, q ∈ ps)) :=
  ⟨by decide, C2_reset_correct ⟨2, [plainPacketAt 9]⟩ 5 (plainPacketAt 6) (by decide)⟩

/-! ## Claim C10 -/

/-- C10: a method packet named "ready" is released immediately by
`Reorder.append` regardless of the previous `lastSequentialCall` value
(the rebase to `counter - 1` makes the release test succeed), and the
rebase discards nothing from the pending queue: the released list is the
packet followed by a drained prefix of the queue, and the rest of the
queue is retained for later release against the new baseline. -/
theorem C10_ready_rebase (r : Reorder) (p : Packet)
    (h1 : p.ptype = "method") (h2 : p.method = "ready") :
    (∃ taken, (r.append p).1 = p :: taken
      ∧ taken ++ (r.append p).2.queue = r.queue)
    ∧ (∀ last2 : Int, Reorder.append ⟨last2, r.queue⟩ p = r.append p) := by
  constructor
  · refine ⟨(replayQueue p.counter r.queue).1, ?_, ?_⟩
    · rw [append_eq_ready h1 h2]
    · rw [append_eq_ready h1 h2]
      exact replayQueue_split p.counter r.queue
  · intro last2
    rw [append_eq_ready (r := ⟨last2, r.queue⟩) h1 h2, append_eq_ready h1 h2]

/-- C10 witness: a "ready" packet at counter 2 appended to a buffer whose
`lastSequentialCall` is 10 and whose queue holds counters 3 and 7: the
packet is released at once together with the drained counter-3 packet,
while the counter-7 packet stays queued. -/
theorem C10_witness :
    (readyPacketAt 2).ptype = "method"
    ∧ (readyPacketAt 2).method = "ready"
    ∧ ((∃ taken,
          (Reorder.append ⟨10, [plainPacketAt 3, plainPacketAt 7]⟩ (readyPacketAt 2)).1
            = readyPacketAt 2 :: taken
          ∧ taken ++ (Reorder.append ⟨10, [plainPacketAt 3, plainPacketAt 7]⟩
              (readyPacketAt 2)).2.queue = [plainPacketAt 3, plainPacketAt 7])
      ∧ (∀ last2 : Int, Reorder.append ⟨last2, [plainPacketAt 3, plainPacketAt 7]⟩
          (readyPacketAt 2)
          = Reorder.append ⟨10, [plainPacketAt 3, plainPacketAt 7]⟩ (readyPacketAt 2))) :=
  ⟨rfl, rfl,
   C10_ready_rebase ⟨10, [plainPacketAt 3, plainPacketAt 7]⟩ (readyPacketAt 2) rfl rfl⟩

/-! ## Error model (src/error.ts) -/

/-- The `RPCError` class: `code`, `message`, optional `path`. -/
structure RPCError where
  code : Int
  message : String
  path : Option (List String)
deriving DecidableEq

/-- `RPCError.toReplyError` (error.ts lines 17-23). -/
def RPCError.toReplyError (e : RPCError) : ErrObj :=
  ⟨e.code, e.message, e.path⟩

/-- `objToError` (rpc.ts lines 17-19): decode a wire error into an RPCError. -/
def objToError (o : ErrObj) : RPCError :=
  ⟨o.code, o.message, o.path⟩

/-! ## Protocol engine (src/rpc.ts) -/

/-- Magic ID used for the "ready" call (rpc.ts line 58). -/
def magicReadyCallId : Int := -1

/-- Outcome of invoking an exposed handler on its params: a result, a thrown
(or rejected) `RPCError`, or any other failure, carried as the printable
description the catch-handler reads from `err.stack || err.message`
(rpc.ts line 163). -/
inductive HandlerResult where
  | ok (result : Value)
  | err (e : RPCError)
  | fail (description : String)

/-- Engine configuration (rpc.ts `IRPCOptions`): `serviceId`, optional
`origin`, optional `protocolVersion`. The transport handles are external. -/
structure Options where
  serviceId : String
  origin : Option String
  protocolVersion : Option String

/-- Observable actions of the engine: posting a (counter-stamped) packet to
the transport, resolving or rejecting the promise of a pending call, and invoking
an exposed handler. -/
inductive Effect where
  | sent (p : Packet)
  | resolved (id : Int) (result : Value)
  | rejectedWith (id : Int) (e : RPCError)
  | invoked (method : String) (params : Value)

/-- Mutable state of one `RPC` instance: the outgoing counter, the call
ledger (ids with a pending callback in `this.calls`), the handler registry
(the listener lists of the EventEmitter: `expose` appends one listener per call,
`emit` fires all listeners registered for the name, in order), the reorder
buffer, the recorded remote protocol version, and whether the `isReady`
promise has resolved. -/
structure RPCState where
  callCounter : Int
  pendingCalls : List Int
  handlers : List (String × (Value → HandlerResult))
  reorder : Reorder
  remoteProtocolVersion : Option Value
  ready : Bool

/-- Fresh state right after the field initializers run (counter 0, empty
ledger, no handlers yet, reorder buffer at -1, not ready). -/
def RPCState.init : RPCState :=
  ⟨0, [], [], Reorder.init, none, false⟩

/-- `RPC.post` (rpc.ts lines 248-251): stamp the message with the current
counter, increment the counter, and send. Returns the new state and the
stamped packet handed to `postMessage`. -/
def post (s : RPCState) (m : Packet) : RPCState × Packet :=
  ({ s with callCounter := s.callCounter + 1 }, { m with counter := s.callCounter })

/-- `RPC.expose` (rpc.ts lines 136-173): `this.on(method, wrapper)` adds one
more listener for `method`; prior registrations are kept. -/
def expose (s : RPCState) (method : String) (handler : Value → HandlerResult) : RPCState :=
  { s with handlers := s.handlers ++ [(method, handler)] }

/-- The reply packet the expose wrapper builds for a non-discarded call
(rpc.ts lines 144-165): `result` on success; on an `RPCError` its
`toReplyError()`; on any other failure `{code: 0, message: description}`. -/
def replyFor (serviceId : String) (data : Packet) (handler : Value → HandlerResult) : Packet :=
  match handler data.params with
  | .ok result =>
    ⟨"reply", serviceId, data.id, "", Value.vUndefined, false, result, none, 0⟩
  | .err e =>
    ⟨"reply", serviceId, data.id, "", Value.vUndefined, false, Value.vUndefined,
      some e.toReplyError, 0⟩
  | .fail d =>
    ⟨"reply", serviceId, data.id, "", Value.vUndefined, false, Value.vUndefined,
      some ⟨0, d, none⟩, 0⟩

/-- One expose-wrapper invocation (the listener attached at rpc.ts line 137):
if the packet is marked `discard`, the handler runs for side effects only and
no reply is sent; otherwise exactly one reply packet is built and posted. -/
def runExposed (serviceId : String) (handler : Value → HandlerResult)
    (s : RPCState) (data : Packet) : RPCState × List Effect :=
  if data.discard then
    (s, [.invoked data.method data.params])
  else
    let pr := post s (replyFor serviceId data handler)
    (pr.1, [.invoked data.method data.params, .sent pr.2])

/-- `this.emit(packet.method, packet)` fires every listener registered for
the method name, in registration order. -/
def runAllExposed (serviceId : String) (hs : List (Value → HandlerResult))
    (s : RPCState) (data : Packet) : RPCState × List Effect :=
  match hs with
  | [] => (s, [])
  | h :: rest =>
    let a := runExposed serviceId h s data
    let b := runAllExposed serviceId rest a.1 data
    (b.1, a.2 ++ b.2)

/-- `RPC.handleReply` (rpc.ts lines 233-246): look up the ledger entry; if
absent, drop. Otherwise fire the callback (reject with the decoded error, or
resolve with the result) and delete the entry. Resolving or rejecting the
handshake call (id -1) resolves `isReady` — the constructor chained
`.then(resolve).catch(resolve)` onto the handshake call
(rpc.ts lines 113-115). -/
def handleReply (s : RPCState) (p : Packet) : RPCState × List Effect :=
  if p.id ∈ s.pendingCalls then
    let s2 : RPCState :=
      { s with pendingCalls := s.pendingCalls.filter (fun i => i ≠ p.id),
               ready := s.ready || p.id = magicReadyCallId }
    match p.error with
    | some e => (s2, [.rejectedWith p.id (objToError e)])
    | none => (s2, [.resolved p.id p.result])
  else
    (s, [])

/-- `RPC.dispatchIncoming` (rpc.ts lines 301-325). A method packet with at
least one registered listener is emitted to all of them; invoking the
"ready" handler resolves `isReady` (the constructor registered
a ready handler that resolves, rpc.ts lines 108-111). A method
packet with no listener is answered with the 4003 "Unknown method" reply —
the source posts it without consulting `packet.discard`. Reply packets go to
`handleReply`; anything else is ignored. -/
def dispatchIncoming (opts : Options) (s : RPCState) (p : Packet) : RPCState × List Effect :=
  if p.ptype = "method" then
    let hs := (s.handlers.filter (fun h => h.1 = p.method)).map (fun h => h.2)
    if hs.isEmpty then
      let pr := post s ⟨"reply", opts.serviceId, p.id, "", Value.vUndefined, false,
        Value.vNull, some ⟨4003, "Unknown method name \"" ++ p.method ++ "\"", none⟩, 0⟩
      (pr.1, [.sent pr.2])
    else
      let s1 := if p.method = "ready" then { s with ready := true } else s
      runAllExposed opts.serviceId hs s1 p
  else if p.ptype = "reply" then
    handleReply s p
  else
    (s, [])

/-- `RPC.isReadySignal` (rpc.ts lines 253-263). -/
def isReadySignal (p : Packet) : Bool :=
  if p.ptype = "method" ∧ p.method = "ready" then true
  else if p.ptype = "reply" ∧ p.id = magicReadyCallId then true
  else false

/-- The handshake side effects in the listener (rpc.ts lines 287-293):
record the advertised protocol version of the peer, reset the outgoing
counter to 0, and reset the reorder buffer to the counter of the packet.
The version is read as `packet.params.protocolVersion` (method) or
`packet.result.protocolVersion` (reply) BEFORE any assignment runs: when
that field is `null` or absent the access throws, the TypeError escapes the
listener, and none of the side effects — in particular not the
`callCounter = 0` reset — take place. -/
def applyReadySignal (s : RPCState) (p : Packet) : Except String RPCState :=
  match (if p.ptype = "method" then p.params.access "protocolVersion"
         else p.result.access "protocolVersion") with
  | .error e => .error e
  | .ok v =>
    .ok { s with
          remoteProtocolVersion := some v,
          callCounter := 0,
          reorder := s.reorder.reset p.counter }

/-- Dispatching every packet released by the reorder buffer, in order
(the `for` loop at rpc.ts lines 295-298). -/
def dispatchAll (opts : Options) (s : RPCState) (ps : List Packet) : RPCState × List Effect :=
  match ps with
  | [] => (s, [])
  | p :: rest =>
    let a := dispatchIncoming opts s p
    let b := dispatchAll opts a.1 rest
    (b.1, a.2 ++ b.2)

/-! ### Inbound message validation (src/types.ts, rpc.ts listener) -/

/-- A successfully JSON-parsed payload before validation: every field is
optional, mirroring a duck-typed JS object. -/
structure RawMsg where
  rtype : Option String
  serviceID : Option String
  id : Option Int
  method : Option String
  params : Option Value
  discard : Option Bool
  result : Option Value
  error : Option ErrObj
  counter : Option Int

/-- A successfully parsed JSON payload: the literal `null`, another
primitive (number, string, boolean, or any non-schema value — property
access on these yields `undefined` without throwing), or an object, modelled
with its optional schema fields. -/
inductive ParsedPayload where
  | primNull
  | prim (v : Value)
  | obj (m : RawMsg)

/-- `isRPCMessage` (types.ts lines 43-45): the type tag must be `method` or
`reply` and the counter must be a number. The check reads `data.type`, so a
payload that parsed to `null` makes it throw a TypeError (`.error`) — the
`try` in the listener covers only `JSON.parse`, so this escapes. -/
def isRPCMessage (payload : ParsedPayload) : Except String Bool :=
  match payload with
  | .primNull => .error "TypeError"
  | .prim _ => .ok false
  | .obj m =>
    .ok ((m.rtype == some "method" || m.rtype == some "reply") && m.counter.isSome)

/-- Filling in a `Packet` from a validated raw message; defaults stand for
JS `undefined` on absent fields. -/
def toPacket (m : RawMsg) : Packet :=
  ⟨m.rtype.getD "", m.serviceID.getD "", m.id.getD 0, m.method.getD "",
   m.params.getD Value.vUndefined, m.discard.getD false,
   m.result.getD Value.vUndefined, m.error, m.counter.getD 0⟩

/-- A transport message event: the reported origin, and the payload —
`none` when `JSON.parse(ev.data)` throws (the one failure the listener
catches). -/
structure MessageEvent where
  origin : String
  data : Option ParsedPayload

/-- `RPC.listener` (rpc.ts lines 265-299): origin gate (skipped when the
configured origin is absent, empty — JS falsy — or "*"), parse gate (the
only `try`-guarded step), then the `isRPCMessage` / serviceID gate — the
schema check itself throws on a `null` payload and that TypeError escapes
the listener (`.error`) — then handshake side effects when the packet is a
ready signal (which can also throw, see `applyReadySignal`), then reorder
and dispatch of every released packet. The `.ok` results carry the new
state and the produced effects; `.error` models an exception escaping the
callback, with the instance state left as it was. -/
def listener (opts : Options) (s : RPCState) (ev : MessageEvent) :
    Except String (RPCState × List Effect) :=
  if (opts.origin.getD "") ≠ "" ∧ opts.origin ≠ some "*" ∧ some ev.origin ≠ opts.origin then
    .ok (s, [])
  else
    match ev.data with
    | none => .ok (s, [])
    | some payload =>
      match isRPCMessage payload with
      | .error e => .error e
      | .ok false => .ok (s, [])
      | .ok true =>
        match payload with
        | .obj raw =>
          if raw.serviceID ≠ some opts.serviceId then
            .ok (s, [])
          else
            let p := toPacket raw
            if isReadySignal p then
              match applyReadySignal s p with
              | .error e => .error e
              | .ok s1 =>
                let ar := s1.reorder.append p
                .ok (dispatchAll opts { s1 with reorder := ar.2 } ar.1)
            else
              let ar := s.reorder.append p
              .ok (dispatchAll opts { s with reorder := ar.2 } ar.1)
        | _ => .ok (s, [])
        -- the wildcard arm is unreachable: isRPCMessage yields true only
        -- for object payloads

/-- `RPC.call` (rpc.ts lines 187-214): build the method packet (sentinel id
for "ready", else the current counter), post it, and if `waitForReply`
create the ledger entry (Object keys are unique, so an existing id is not
duplicated). -/
def call (opts : Options) (s : RPCState) (method : String) (params : Value)
    (waitForReply : Bool) : RPCState × List Effect :=
  let id := if method = "ready" then magicReadyCallId else s.callCounter
  let packet : Packet :=
    ⟨"method", opts.serviceId, id, method, params, !waitForReply,
     Value.vUndefined, none, 0⟩
  let pr := post s packet
  if waitForReply then
    ({ pr.1 with pendingCalls :=
        if id ∈ pr.1.pendingCalls then pr.1.pendingCalls else pr.1.pendingCalls ++ [id] },
     [.sent pr.2])
  else
    (pr.1, [.sent pr.2])

/-- Repeated posting, for the session-level counter claims. -/
def postAll (s : RPCState) (ms : List Packet) : RPCState × List Packet :=
  match ms with
  | [] => (s, [])
  | m :: rest =>
    let a := post s m
    let b := postAll a.1 rest
    (b.1, a.2 :: b.2)

/-! ## Dispatch of exposed handlers: helper lemmas -/

/-- The effect trace of emitting one non-discarded method packet to the
listener list `hs`, with the outgoing counter at `c`: each handler is
invoked in order and posts one reply. -/
def effectsOf (serviceId : String) (c : Int) (hs : List (Value → HandlerResult))
    (data : Packet) : List Effect :=
  match hs with
  | [] => []
  | h :: rest =>
    Effect.invoked data.method data.params
      :: Effect.sent { replyFor serviceId data h with counter := c }
      :: effectsOf serviceId (c + 1) rest data

/-- Number of packets posted in an effect trace. -/
def countSent (es : List Effect) : Nat :=
  es.countP (fun e => match e with | .sent _ => true | _ => false)

theorem countSent_effectsOf (serviceId : String) (c : Int)
    (hs : List (Value → HandlerResult)) (data : Packet) :
    countSent (effectsOf serviceId c hs data) = hs.length := by
  induction hs generalizing c with
  | nil => rfl
  | cons h rest ih =>
    simp only [effectsOf, countSent, List.countP_cons, List.length_cons]
    have := ih (c + 1)
    simp only [countSent] at this
    simp [this]

theorem runAllExposed_spec (serviceId : String) (hs : List (Value → HandlerResult))
    (s : RPCState) (data : Packet) (hdisc : data.discard = false) :
    runAllExposed serviceId hs s data
      = ({ s with callCounter := s.callCounter + hs.length },
         effectsOf serviceId s.callCounter hs data) := by
  induction hs generalizing s with
  | nil => simp [runAllExposed, effectsOf]
  | cons h rest ih =>
    have hcc : s.callCounter + 1 + (rest.length : Int)
        = s.callCounter + (((rest.length : Int)) + 1) := by omega
    simp only [runAllExposed, runExposed, hdisc, Bool.false_eq_true, if_false, post,
      effectsOf, ih, List.length_cons]
    simp [hcc]

theorem runAllExposed_ready (serviceId : String) (hs : List (Value → HandlerResult))
    (s : RPCState) (data : Packet) :
    (runAllExposed serviceId hs s data).1.ready = s.ready := by
  induction hs generalizing s with
  | nil => rfl
  | cons h rest ih =>
    simp only [runAllExposed]
    rw [ih]
    unfold runExposed
    split <;> rfl

theorem dispatchIncoming_handlers (opts : Options) (s : RPCState) (p : Packet)
    (hm : p.ptype = "method") (hd : p.discard = false)
    (hne : (s.handlers.filter (fun q => q.1 = p.method)).map (fun q => q.2) ≠ []) :
    (dispatchIncoming opts s p).2
      = effectsOf opts.serviceId s.callCounter
          ((s.handlers.filter (fun q => q.1 = p.method)).map (fun q => q.2)) p := by
  have hie : ((s.handlers.filter (fun q => q.1 = p.method)).map (fun q => q.2)).isEmpty
      = false := by
    simpa [List.isEmpty_iff] using hne
  by_cases hr : p.method = "ready"
  · simp only [dispatchIncoming, if_pos hm, hie, Bool.false_eq_true, if_false, if_pos hr,
      runAllExposed_spec _ _ _ _ hd]
  · simp only [dispatchIncoming, if_pos hm, hie, Bool.false_eq_true, if_false, if_neg hr,
      runAllExposed_spec _ _ _ _ hd]

/-! ## Claim C3 -/

/-- Options with no origin restriction, used for concrete scenarios. -/
def noneOpts : Options := ⟨"svc", none, none⟩

/-- A discarded method call to the unregistered method "bar". -/
def discardBarCall : Packet :=
  ⟨"method", "svc", 7, "bar", Value.vNull, true, Value.vUndefined, none, 1⟩

/-- C3 counterexample: the claim as stated fails on the code. Dispatching a
method packet with `discard = true` and no registered handler still sends
the 4003 reply: `dispatchIncoming` (rpc.ts lines 301-317) posts the
"Unknown method" reply without consulting the `discard` flag, so the
"engine sends no reply at all" half of the claim is false. -/
theorem C3_counterexample :
    discardBarCall.discard = true
    ∧ (dispatchIncoming noneOpts RPCState.init discardBarCall).2
        = [Effect.sent ⟨"reply", "svc", 7, "", Value.vUndefined, false, Value.vNull,
            some ⟨4003, "Unknown method name \"bar\"", none⟩, 0⟩] :=
  ⟨rfl, rfl⟩

/-- C3 (amended: the discard flag makes no difference): when a method packet
is dispatched whose method name has no registered handler, the engine sends
exactly one reply — regardless of its discard flag — correlated by
the id of the packet, carrying error code 4003, message
`Unknown method name "<method>"`, and result null. -/
theorem C3_unknown_method (opts : Options) (s : RPCState) (p : Packet)
    (hm : p.ptype = "method")
    (hn : ∀ q ∈ s.handlers, q.1 ≠ p.method) :
    dispatchIncoming opts s p
      = ({ s with callCounter := s.callCounter + 1 },
         [Effect.sent ⟨"reply", opts.serviceId, p.id, "", Value.vUndefined, false,
           Value.vNull, some ⟨4003, "Unknown method name \"" ++ p.method ++ "\"", none⟩,
           s.callCounter⟩]) := by
  have hfil : s.handlers.filter (fun q => q.1 = p.method) = [] := by
    rw [List.filter_eq_nil_iff]
    intro q hq
    simpa using hn q hq
  simp [dispatchIncoming, hm, hfil, post]

/-- C3 witness: the amended theorem applied to the discarded "bar" call with
no handlers registered. -/
theorem C3_witness :
    discardBarCall.ptype = "method"
    ∧ (∀ q ∈ RPCState.init.handlers, q.1 ≠ discardBarCall.method)
    ∧ dispatchIncoming noneOpts RPCState.init discardBarCall
        = ({ RPCState.init with callCounter := RPCState.init.callCounter + 1 },
           [Effect.sent ⟨"reply", noneOpts.serviceId, discardBarCall.id, "",
             Value.vUndefined, false, Value.vNull,
             some ⟨4003, "Unknown method name \"" ++ discardBarCall.method ++ "\"", none⟩,
             RPCState.init.callCounter⟩]) :=
  ⟨rfl, by simp [RPCState.init],
   C3_unknown_method noneOpts RPCState.init discardBarCall rfl
     (by simp [RPCState.init])⟩

/-! ## Claim C4 -/

/-- Two successive registrations for the same method name "m". -/
def twoHandlersState : RPCState :=
  expose (expose RPCState.init "m" (fun _ => HandlerResult.ok (Value.vInt 1)))
    "m" (fun _ => HandlerResult.ok (Value.vInt 2))

/-- A non-discarded call to method "m". -/
def mCall : Packet :=
  ⟨"method", "svc", 3, "m", Value.vNull, false, Value.vUndefined, none, 1⟩

/-- C4 counterexample: the claim as stated fails on the code. `expose` uses
`EventEmitter.on`, which adds a listener without replacing prior ones
(rpc.ts line 137): after two `expose("m", ...)` calls, two handlers are
registered for "m", and a single non-discarded call to "m" invokes both and
posts two replies — not the claimed single last-registered handler and
single reply. -/
theorem C4_counterexample :
    (twoHandlersState.handlers.filter (fun q => q.1 = "m")).length = 2
    ∧ countSent (dispatchIncoming noneOpts twoHandlersState mCall).2 = 2 :=
  ⟨rfl, rfl⟩

/-- C4 (amended): `expose(m, handler)` appends a registration, keeping every
prior one; a single non-discarded incoming call to `m` invokes every handler
registered for `m`, in registration order, and produces one reply per
registered handler — in particular exactly one reply when `m` was exposed
exactly once. -/
theorem C4_expose_registry (opts : Options) (s : RPCState) (m : String)
    (h : Value → HandlerResult) (p : Packet)
    (hm : p.ptype = "method") (hd : p.discard = false)
    (hne : (s.handlers.filter (fun q => q.1 = p.method)).map (fun q => q.2) ≠ []) :
    (expose s m h).handlers = s.handlers ++ [(m, h)]
    ∧ (dispatchIncoming opts s p).2
        = effectsOf opts.serviceId s.callCounter
            ((s.handlers.filter (fun q => q.1 = p.method)).map (fun q => q.2)) p
    ∧ countSent (dispatchIncoming opts s p).2
        = ((s.handlers.filter (fun q => q.1 = p.method)).map (fun q => q.2)).length :=
  ⟨rfl, dispatchIncoming_handlers opts s p hm hd hne, by
    rw [dispatchIncoming_handlers opts s p hm hd hne, countSent_effectsOf]⟩

/-- C4 witness: the amended theorem applied to the state with two "m"
registrations and the concrete call `mCall`. -/
theorem C4_witness :
    mCall.ptype = "method"
    ∧ mCall.discard = false
    ∧ ((twoHandlersState.handlers.filter (fun q => q.1 = mCall.method)).map
        (fun q => q.2) ≠ [])
    ∧ ((expose twoHandlersState "x" (fun _ => HandlerResult.ok Value.vNull)).handlers
          = twoHandlersState.handlers ++ [("x", fun _ => HandlerResult.ok Value.vNull)]
      ∧ (dispatchIncoming noneOpts twoHandlersState mCall).2
          = effectsOf noneOpts.serviceId twoHandlersState.callCounter
              ((twoHandlersState.handlers.filter (fun q => q.1 = mCall.method)).map
                (fun q => q.2)) mCall
      ∧ countSent (dispatchIncoming noneOpts twoHandlersState mCall).2
          = ((twoHandlersState.handlers.filter (fun q => q.1 = mCall.method)).map
              (fun q => q.2)).length) :=
  ⟨rfl, rfl, by simp [twoHandlersState, expose, RPCState.init, mCall],
   C4_expose_registry noneOpts twoHandlersState "x"
     (fun _ => HandlerResult.ok Value.vNull) mCall rfl rfl
     (by simp [twoHandlersState, expose, RPCState.init, mCall])⟩

/-! ## Claim C8 -/

/-- C8: a non-discarded incoming method call whose name has exactly one
registered handler produces exactly one reply, whatever the handler does:
the handler is invoked once and one stamped reply is posted; on success the
reply carries the handler result and no error; on a thrown `RPCError` the
reply error carries its code, message and path verbatim; on any other
failure the reply error has code 0 and the description of the failure as its
message. -/
theorem C8_single_reply (opts : Options) (s : RPCState) (p : Packet)
    (h : Value → HandlerResult)
    (hm : p.ptype = "method") (hd : p.discard = false)
    (hone : (s.handlers.filter (fun q => q.1 = p.method)).map (fun q => q.2) = [h]) :
    (dispatchIncoming opts s p).2
      = [Effect.invoked p.method p.params,
         Effect.sent { replyFor opts.serviceId p h with counter := s.callCounter }]
    ∧ (∀ v, h p.params = .ok v →
        replyFor opts.serviceId p h
          = ⟨"reply", opts.serviceId, p.id, "", Value.vUndefined, false, v, none, 0⟩)
    ∧ (∀ e, h p.params = .err e →
        replyFor opts.serviceId p h
          = ⟨"reply", opts.serviceId, p.id, "", Value.vUndefined, false, Value.vUndefined,
             some ⟨e.code, e.message, e.path⟩, 0⟩)
    ∧ (∀ d, h p.params = .fail d →
        replyFor opts.serviceId p h
          = ⟨"reply", opts.serviceId, p.id, "", Value.vUndefined, false, Value.vUndefined,
             some ⟨0, d, none⟩, 0⟩) := by
  refine ⟨?_, ?_, ?_, ?_⟩
  · rw [dispatchIncoming_handlers opts s p hm hd (by rw [hone]; simp), hone]
    rfl
  · intro v hv
    simp [replyFor, hv]
  · intro e he
    simp [replyFor, he, RPCError.toReplyError]
  · intro d hd2
    simp [replyFor, hd2]

/-- C8 witness: a single registered "bar" handler that throws
`RPCError(1234, "oh no!")`, mirroring the marble test of the repository. -/
theorem C8_witness :
    mCall.ptype = "method"
    ∧ mCall.discard = false
    ∧ ((expose RPCState.init "m" (fun _ => HandlerResult.err ⟨1234, "oh no!", none⟩)
        ).handlers.filter (fun q => q.1 = mCall.method)).map (fun q => q.2)
        = [fun _ => HandlerResult.err ⟨1234, "oh no!", none⟩]
    ∧ (dispatchIncoming noneOpts
        (expose RPCState.init "m" (fun _ => HandlerResult.err ⟨1234, "oh no!", none⟩))
        mCall).2
      = [Effect.invoked mCall.method mCall.params,
         Effect.sent { replyFor noneOpts.serviceId mCall
            (fun _ => HandlerResult.err ⟨1234, "oh no!", none⟩) with
            counter := (expose RPCState.init "m"
              (fun _ => HandlerResult.err ⟨1234, "oh no!", none⟩)).callCounter }] :=
  ⟨rfl, rfl, by simp [expose, RPCState.init, mCall],
   (C8_single_reply noneOpts
     (expose RPCState.init "m" (fun _ => HandlerResult.err ⟨1234, "oh no!", none⟩))
     mCall (fun _ => HandlerResult.err ⟨1234, "oh no!", none⟩) rfl rfl
     (by simp [expose, RPCState.init, mCall])).1⟩

/-! ## Readiness: monotonicity helpers -/

theorem applyReadySignal_ready {s s1 : RPCState} {p : Packet}
    (h : applyReadySignal s p = .ok s1) : s1.ready = s.ready := by
  unfold applyReadySignal at h
  split at h
  · exact absurd h (by simp)
  · rw [(Except.ok.inj h).symm]

theorem handleReply_ready_mono (s : RPCState) (p : Packet) (h : s.ready = true) :
    (handleReply s p).1.ready = true := by
  unfold handleReply
  by_cases hin : p.id ∈ s.pendingCalls
  · rw [if_pos hin]
    cases herr : p.error <;> simp [h]
  · rw [if_neg hin]
    exact h

theorem dispatchIncoming_ready_mono (opts : Options) (s : RPCState) (p : Packet)
    (h : s.ready = true) : (dispatchIncoming opts s p).1.ready = true := by
  unfold dispatchIncoming
  by_cases hm : p.ptype = "method"
  · rw [if_pos hm]
    by_cases hie : ((s.handlers.filter (fun q => q.1 = p.method)).map (fun q => q.2)).isEmpty
    · simp [hie, post, h]
    · simp only [hie, Bool.false_eq_true, if_false]
      rw [runAllExposed_ready]
      by_cases hr : p.method = "ready"
      · simp [hr]
      · simp [hr, h]
  · rw [if_neg hm]
    by_cases hr : p.ptype = "reply"
    · rw [if_pos hr]
      exact handleReply_ready_mono s p h
    · rw [if_neg hr]
      exact h

theorem dispatchAll_ready_mono (opts : Options) (ps : List Packet) :
    ∀ s : RPCState, s.ready = true → (dispatchAll opts s ps).1.ready = true := by
  induction ps with
  | nil =>
    intro s h
    exact h
  | cons p rest ih =>
    intro s h
    exact ih (dispatchIncoming opts s p).1 (dispatchIncoming_ready_mono opts s p h)

theorem listener_ready_mono (opts : Options) (s : RPCState) (ev : MessageEvent)
    (h : s.ready = true) :
    ∀ (s2 : RPCState) (es : List Effect),
      listener opts s ev = .ok (s2, es) → s2.ready = true := by
  intro s2 es heq
  unfold listener at heq
  split at heq
  · rw [← (Prod.mk.inj (Except.ok.inj heq)).1]
    exact h
  · split at heq
    · rw [← (Prod.mk.inj (Except.ok.inj heq)).1]
      exact h
    · split at heq
      · exact absurd heq (by simp)
      · rw [← (Prod.mk.inj (Except.ok.inj heq)).1]
        exact h
      · split at heq
        · split at heq
          · rw [← (Prod.mk.inj (Except.ok.inj heq)).1]
            exact h
          · dsimp only at heq
            split at heq
            · split at heq
              · exact absurd heq (by simp)
              · rw [← (Prod.mk.inj (Except.ok.inj heq)).1]
                apply dispatchAll_ready_mono
                show RPCState.ready _ = true
                rw [show ∀ (t : RPCState) (r : Reorder), ({ t with reorder := r } : RPCState).ready = t.ready from fun t r => rfl]
                rw [applyReadySignal_ready (by assumption)]
                exact h
            · rw [← (Prod.mk.inj (Except.ok.inj heq)).1]
              apply dispatchAll_ready_mono
              exact h
        · rw [← (Prod.mk.inj (Except.ok.inj heq)).1]
          exact h

/-! ## Claim C5 -/

/-- C5: the is-ready signal (the resolution of the `isReady` promise) is
monotone — once set it never reverts across any inbound processing — and it
is set by either trigger: the local "ready" handler being invoked by the
method call of the peer, or the handshake call (sentinel id -1, present in the
ledger) receiving any reply, with or without an error. -/
theorem C5_ready_signal :
    (∀ (opts : Options) (s : RPCState) (ev : MessageEvent),
      s.ready = true → ∀ (s2 : RPCState) (es : List Effect),
        listener opts s ev = .ok (s2, es) → s2.ready = true)
    ∧ (∀ (opts : Options) (s : RPCState) (p : Packet),
      p.ptype = "method" → p.method = "ready" →
      (s.handlers.filter (fun q => q.1 = p.method)).map (fun q => q.2) ≠ [] →
      (dispatchIncoming opts s p).1.ready = true)
    ∧ (∀ (opts : Options) (s : RPCState) (p : Packet),
      p.ptype = "reply" → p.id = magicReadyCallId → p.id ∈ s.pendingCalls →
      (dispatchIncoming opts s p).1.ready = true) := by
  refine ⟨listener_ready_mono, ?_, ?_⟩
  · intro opts s p hm hr hne
    have hie : ((s.handlers.filter (fun q => q.1 = p.method)).map (fun q => q.2)).isEmpty
        = false := by
      simpa [List.isEmpty_iff] using hne
    simp only [dispatchIncoming, if_pos hm, hie, Bool.false_eq_true, if_false, if_pos hr]
    rw [runAllExposed_ready]
  · intro opts s p hr hid hk
    have hm : ¬(p.ptype = "method") := by simp [hr]
    simp only [dispatchIncoming, if_neg hm, if_pos hr]
    unfold handleReply
    rw [if_pos hk]
    cases herr : p.error <;> simp [hid]

/-- The "ready" handler registered by the constructor, alone. -/
def readyOnlyState : RPCState :=
  expose RPCState.init "ready" (fun _ => HandlerResult.ok Value.vNull)

/-- Handshake method call arriving from the peer. -/
def peerReadyCall : Packet :=
  ⟨"method", "svc", -1, "ready", Value.vObj [("protocolVersion", Value.vStr "1.0")],
   true, Value.vUndefined, none, 0⟩

/-- A reply to the handshake call (sentinel id -1) carrying an error. -/
def readyErrReply : Packet :=
  ⟨"reply", "svc", -1, "", Value.vUndefined, false, Value.vNull,
   some ⟨4000, "mismatch", none⟩, 0⟩

/-- C5 witness: monotonicity on an already-ready state, the handler trigger
on the constructor-registered "ready" handler, and the reply trigger on an
error reply to the sentinel id. -/
theorem C5_witness :
    (({ RPCState.init with ready := true } : RPCState).ready = true
      ∧ listener noneOpts { RPCState.init with ready := true } ⟨"x", none⟩
          = Except.ok ({ RPCState.init with ready := true }, [])
      ∧ ({ RPCState.init with ready := true } : RPCState).ready = true)
    ∧ (dispatchIncoming noneOpts readyOnlyState peerReadyCall).1.ready = true
    ∧ (dispatchIncoming noneOpts
        { RPCState.init with pendingCalls := [-1] } readyErrReply).1.ready = true :=
  ⟨⟨rfl, rfl,
    C5_ready_signal.1 noneOpts { RPCState.init with ready := true } ⟨"x", none⟩ rfl
      { RPCState.init with ready := true } [] rfl⟩,
   C5_ready_signal.2.1 noneOpts readyOnlyState peerReadyCall rfl rfl
     (by simp [readyOnlyState, expose, RPCState.init, peerReadyCall]),
   C5_ready_signal.2.2 noneOpts { RPCState.init with pendingCalls := [-1] }
     readyErrReply rfl rfl (by decide)⟩

/-! ## Claim C6 -/

/-- C6 counterexample: the claim as stated fails on the code. The payload
string "null" parses successfully (the `try` at rpc.ts lines 273-277 covers
only `JSON.parse`), and then `isRPCMessage(null)` at rpc.ts line 279 reads
`data.type` on `null` (types.ts line 44) and throws a TypeError that
escapes the listener: the packet fails the structural check but is NOT
silently dropped, and processing does throw. -/
theorem C6_counterexample :
    listener noneOpts RPCState.init ⟨"example.com", some ParsedPayload.primNull⟩
      = .error "TypeError" := rfl

/-- C6 (amended: a payload that parses to JSON `null` is excluded — on it
the structural check itself throws a TypeError that escapes the listener,
since the `try` covers only `JSON.parse`): an inbound event is dropped
silently — unchanged state, no effects, no reply, so subsequent packets are
processed from the same state — whenever the transport origin mismatches a
configured non-empty, non-"*" origin, or the payload fails to parse, or the
parsed payload (non-null) fails the structural check, or the serviceID
differs from the locally configured one. -/
theorem C6_listener_drops (opts : Options) (s : RPCState) (ev : MessageEvent)
    (h : (∃ o, opts.origin = some o ∧ o ≠ "" ∧ o ≠ "*" ∧ ev.origin ≠ o)
      ∨ ev.data = none
      ∨ (∃ payload, ev.data = some payload ∧ isRPCMessage payload = .ok false)
      ∨ (∃ raw, ev.data = some (ParsedPayload.obj raw)
          ∧ raw.serviceID ≠ some opts.serviceId)) :
    listener opts s ev = .ok (s, []) := by
  by_cases hcond : (opts.origin.getD "") ≠ "" ∧ opts.origin ≠ some "*"
      ∧ some ev.origin ≠ opts.origin
  · simp only [listener, if_pos hcond]
  · simp only [listener, if_neg hcond]
    rcases h with ⟨o, ho, hoe, hos, hor⟩ | h2 | ⟨payload, hp2, hfalse⟩ | ⟨raw, hraw, hsid⟩
    · exfalso
      refine hcond ⟨?_, ?_, ?_⟩
      · rw [ho]
        exact hoe
      · rw [ho]
        intro heq
        exact hos (Option.some.inj heq)
      · rw [ho]
        intro heq
        exact hor (Option.some.inj heq)
    · rw [h2]
    · rw [hp2]
      dsimp only
      rw [hfalse]
    · rw [hraw]
      dsimp only
      cases hbv : (raw.rtype == some "method" || raw.rtype == some "reply")
          && raw.counter.isSome
      · have hmsg : isRPCMessage (ParsedPayload.obj raw) = .ok false := by
          simp [isRPCMessage, hbv]
        rw [hmsg]
      · have hmsg : isRPCMessage (ParsedPayload.obj raw) = .ok true := by
          simp [isRPCMessage, hbv]
        rw [hmsg]
        dsimp only
        rw [if_pos hsid]

/-- A parsed message whose serviceID does not match the local "svc". -/
def wrongServiceRaw : RawMsg :=
  ⟨some "method", some "other", some 1, some "m", none, none, none, none, some 0⟩

/-- C6 witness: an event from the right origin that parses to an object but
carries the wrong serviceID is dropped with no state change and no
effects. -/
theorem C6_witness :
    ((∃ o, noneOpts.origin = some o ∧ o ≠ "" ∧ o ≠ "*" ∧ "example.com" ≠ o)
      ∨ (some (ParsedPayload.obj wrongServiceRaw) : Option ParsedPayload) = none
      ∨ (∃ payload, (some (ParsedPayload.obj wrongServiceRaw) : Option ParsedPayload)
          = some payload ∧ isRPCMessage payload = .ok false)
      ∨ (∃ raw, (some (ParsedPayload.obj wrongServiceRaw) : Option ParsedPayload)
          = some (ParsedPayload.obj raw) ∧ raw.serviceID ≠ some noneOpts.serviceId))
    ∧ listener noneOpts RPCState.init ⟨"example.com", some (ParsedPayload.obj wrongServiceRaw)⟩
        = .ok (RPCState.init, []) :=
  ⟨Or.inr (Or.inr (Or.inr ⟨wrongServiceRaw, rfl, by decide⟩)),
   C6_listener_drops noneOpts RPCState.init
     ⟨"example.com", some (ParsedPayload.obj wrongServiceRaw)⟩
     (Or.inr (Or.inr (Or.inr ⟨wrongServiceRaw, rfl, by decide⟩)))⟩

/-! ## Claim C7 -/

/-- C7: `call(method, params, true)` puts the assigned id in the ledger;
dispatching a reply with a ledger-registered id resolves the promise of that
call with the `result` of the reply when there is no error, rejects it with
an `RPCError` carrying the code, message and path of the wire error when there is
one, and in both cases deletes the ledger entry, so dispatching a second
reply with the same id changes nothing and produces no effects. -/
theorem C7_round_trip (opts : Options) (s : RPCState) (p : Packet)
    (hp : p.ptype = "reply") (hk : p.id ∈ s.pendingCalls) :
    (p.error = none →
      dispatchIncoming opts s p
        = ({ s with pendingCalls := s.pendingCalls.filter (fun i => i ≠ p.id),
                    ready := s.ready || p.id = magicReadyCallId },
           [Effect.resolved p.id p.result]))
    ∧ (∀ e, p.error = some e →
      dispatchIncoming opts s p
        = ({ s with pendingCalls := s.pendingCalls.filter (fun i => i ≠ p.id),
                    ready := s.ready || p.id = magicReadyCallId },
           [Effect.rejectedWith p.id ⟨e.code, e.message, e.path⟩]))
    ∧ p.id ∉ (dispatchIncoming opts s p).1.pendingCalls
    ∧ dispatchIncoming opts (dispatchIncoming opts s p).1 p
        = ((dispatchIncoming opts s p).1, [])
    ∧ (∀ (m : String) (params : Value), m ≠ "ready" →
        s.callCounter ∈ (call opts s m params true).1.pendingCalls) := by
  have hm : ¬(p.ptype = "method") := by simp [hp]
  have hstate : (dispatchIncoming opts s p).1
      = { s with pendingCalls := s.pendingCalls.filter (fun i => i ≠ p.id),
                 ready := s.ready || p.id = magicReadyCallId } := by
    cases herr : p.error <;>
      simp [dispatchIncoming, hm, hp, handleReply, hk, herr]
  have hnotin : p.id ∉ (dispatchIncoming opts s p).1.pendingCalls := by
    rw [hstate]
    simp [List.mem_filter]
  refine ⟨?_, ?_, hnotin, ?_, ?_⟩
  · intro he
    simp [dispatchIncoming, hm, hp, handleReply, hk, he]
  · intro e he
    simp [dispatchIncoming, hm, hp, handleReply, hk, he, objToError]
  · have hdrop : ∀ (s3 : RPCState), p.id ∉ s3.pendingCalls →
        dispatchIncoming opts s3 p = (s3, []) := by
      intro s3 h3
      simp [dispatchIncoming, hm, hp, handleReply, h3]
    exact hdrop _ hnotin
  · intro m params hmr
    simp only [call, if_neg hmr, if_pos rfl, post]
    by_cases hin : s.callCounter ∈ s.pendingCalls
    · simp [hin]
    · simp [hin]

/-- C7 witness: a success reply to the pending id 5 resolves and clears the
entry, a second identical reply is dropped, and a fresh `call` to "a"
registers the current counter. -/
theorem C7_witness :
    (⟨"reply", "svc", 5, "", Value.vUndefined, false, Value.vStr "r", none, 3⟩
        : Packet).ptype = "reply"
    ∧ (5 : Int) ∈ ({ RPCState.init with pendingCalls := [5] } : RPCState).pendingCalls
    ∧ ((⟨"reply", "svc", 5, "", Value.vUndefined, false, Value.vStr "r", none, 3⟩
          : Packet).error = none →
        dispatchIncoming noneOpts { RPCState.init with pendingCalls := [5] }
          ⟨"reply", "svc", 5, "", Value.vUndefined, false, Value.vStr "r", none, 3⟩
        = ({ { RPCState.init with pendingCalls := [5] } with
              pendingCalls := [5].filter (fun i => i ≠ (5 : Int)),
              ready := false || (5 : Int) = magicReadyCallId },
           [Effect.resolved 5 (Value.vStr "r")])) :=
  ⟨rfl, by decide,
   fun he => (C7_round_trip noneOpts { RPCState.init with pendingCalls := [5] }
     ⟨"reply", "svc", 5, "", Value.vUndefined, false, Value.vStr "r", none, 3⟩
     rfl (by decide)).1 he⟩

/-! ## Claim C9 -/

/-- A validated ready signal whose result field is absent: a reply to the
sentinel id -1 with no `result` in the parsed JSON. -/
def bareReadyReplyRaw : RawMsg :=
  ⟨some "reply", some "svc", some (-1), none, none, none, none, none, some 0⟩

/-- C9 counterexample: the reset-to-0 clause of the claim fails on the code.
This packet passes every gate and is recognized as a ready signal
(`isReadySignal` is true), but `packet.result.protocolVersion` at rpc.ts
line 289 reads a property of `undefined` and throws before
`this.callCounter = 0` executes: the listener ends in a TypeError and the
outgoing counter (here 7) is never reset. -/
theorem C9_counterexample :
    isReadySignal (toPacket bareReadyReplyRaw) = true
    ∧ listener noneOpts { RPCState.init with callCounter := 7 }
        ⟨"example.com", some (ParsedPayload.obj bareReadyReplyRaw)⟩
      = .error "TypeError" :=
  ⟨rfl, rfl⟩

/-- C9 (amended: the reset happens only when the version lookup on the
ready signal does not throw): every outbound packet is stamped with the
current outgoing counter, which is then incremented (every outbound path —
method calls, handler replies and the 4003 reply — goes through `post`);
posting a sequence of messages from counter `c` stamps them `c, c+1, ...`
(strictly ascending, so a session started at 0 is stamped 0, 1, 2, ...);
and the ready-signal side effects reset the outgoing counter to 0 whenever
reading `protocolVersion` off the params/result succeeds — when that read
throws (params/result null or absent), the TypeError propagates and no
reset takes place. -/
theorem C9_counter_stamping :
    (∀ (s : RPCState) (m : Packet),
      post s m = ({ s with callCounter := s.callCounter + 1 },
                  { m with counter := s.callCounter }))
    ∧ (∀ (s : RPCState) (ms : List Packet),
      (postAll s ms).2.map Packet.counter = intRange s.callCounter ms.length
      ∧ (postAll s ms).1.callCounter = s.callCounter + ms.length)
    ∧ (∀ (s : RPCState) (p : Packet) (v : Value),
      (if p.ptype = "method" then p.params.access "protocolVersion"
       else p.result.access "protocolVersion") = .ok v →
      applyReadySignal s p
        = .ok { s with remoteProtocolVersion := some v, callCounter := 0,
                       reorder := s.reorder.reset p.counter })
    ∧ (∀ (s : RPCState) (p : Packet) (e : String),
      (if p.ptype = "method" then p.params.access "protocolVersion"
       else p.result.access "protocolVersion") = .error e →
      applyReadySignal s p = .error e) := by
  refine ⟨fun s m => rfl, ?_, ?_, ?_⟩
  · intro s ms
    induction ms generalizing s with
    | nil => simp [postAll, intRange_zero]
    | cons m rest ih =>
      constructor
      · simp only [postAll, List.map_cons, post, List.length_cons]
        rw [(ih _).1, ← intRange_succ]
      · simp only [postAll, post, List.length_cons]
        have h2 := (ih ({ s with callCounter := s.callCounter + 1 })).2
        simp only at h2
        rw [h2]
        push_cast
        omega
  · intro s p v hv
    unfold applyReadySignal
    rw [hv]
  · intro s p e he
    unfold applyReadySignal
    rw [he]

/-- C9 witness: the success case of the ready-signal reset, on the concrete
handshake call whose params carry `protocolVersion: "1.0"`. -/
theorem C9_witness :
    ((if peerReadyCall.ptype = "method"
        then peerReadyCall.params.access "protocolVersion"
        else peerReadyCall.result.access "protocolVersion") = .ok (Value.vStr "1.0"))
    ∧ applyReadySignal RPCState.init peerReadyCall
        = .ok { RPCState.init with
                remoteProtocolVersion := some (Value.vStr "1.0"),
                callCounter := 0,
                reorder := RPCState.init.reorder.reset peerReadyCall.counter } :=
  ⟨rfl, C9_counter_stamping.2.2.1 RPCState.init peerReadyCall (Value.vStr "1.0") rfl⟩

end PostMessageRPC
